import Mathlib

/-!
# BlazeX standard-library shims and the BlazeVM banner stub

A shallow embedding of

* `crates/blazex/stdlib/file_system.c` (`read_file`, `write_file`, `delete_file`),
* `crates/blazex/stdlib/io.c` (`print`, `println`, `input_int`, `input_float`,
  `input_char`, `input_string`),
* `crates/blazex/stdlib/os.c` (`platform`, `struct Person`, `accept_obj`),
* `src/blazevm/vm.cpp` (`VM`).

`crates/blazex/stdlib/main.c` repeats the bodies of the first three files
verbatim, so one definition stands for both copies of each function.

The C library is the environment of these functions.  It is modelled as
explicit state (`World`): a file system, the two console streams and the
list of library calls made so far.  The library calls can fail the way they
do on a POSIX system (`main.c` includes `sys/utsname.h`):

* `fopen` returns `NULL` on a missing or forbidden file;
* `fwrite` only fills the stream buffer, and the flush in `fclose` drops the
  bytes for which the file has no room (file-size limit, full disk) and then
  returns -1;
* files other than regular ones take written bytes without keeping them
  (`/dev/null`), report an end position that is not the number of bytes they
  deliver (procfs files, directories), or cannot be positioned at all (pipes);
* `malloc` returns `NULL` for a request above `PTRDIFF_MAX`;
* a store outside an allocation is undefined behaviour: the model records it
  in `Block.overrun` and goes on, and what is computed after it means nothing.

Not modelled: hard links (each path names a file of its own), the stream
buffer's capacity (content larger than the buffer makes `fwrite` itself
flush), read errors on a regular file, `malloc` failing on a small request,
and the translation of line ends by text mode on Windows.
-/

namespace Blazex

/-! ## Bytes, memory blocks -/

/-- One C `char`, as an unsigned byte. -/
abbrev Byte := Fin 256

/-- One byte of allocated memory: `none` while it is indeterminate (never
stored to since `malloc`), `some b` once a byte was stored. -/
abbrev Cell := Option Byte

/-- An allocation returned by `malloc`.  `overrun` records that a store past
the end of the allocation took place (undefined behaviour in C). -/
structure Block where
  cells : List Cell
  overrun : Bool
deriving DecidableEq, Repr

/-- The largest request `malloc` grants, 2^63 - 1. -/
def PTRDIFF_MAX : Nat := 9223372036854775807

/-- The conversion of a `long` to `size_t`: reduction modulo 2^64. -/
def toSizeT (x : Int) : Nat :=
  (x % 18446744073709551616).toNat

/-- The call `malloc(n)`: `n` indeterminate bytes, or, for a request above
`PTRDIFF_MAX`, the null pointer, a block without a single byte. -/
def malloc (n : Nat) : Block :=
  if n ≤ PTRDIFF_MAX then { cells := List.replicate n none, overrun := false }
  else { cells := [], overrun := false }

/-- The assignment `b[i] = v` for a `long` index `i`. -/
def Block.assign (b : Block) (i : Int) (v : Byte) : Block :=
  if 0 ≤ i ∧ i < (b.cells.length : Nat) then { b with cells := b.cells.set i.toNat (some v) }
  else { b with overrun := true }

/-- A library routine storing `bytes` at the start of the block `b`. -/
def Block.store (b : Block) (bytes : List Byte) : Block :=
  if bytes.length ≤ b.cells.length then
    { b with cells := bytes.map some ++ b.cells.drop bytes.length }
  else
    { cells := (bytes.take b.cells.length).map some, overrun := true }

/-- The call `strlen(s)` on the memory `s` that a `const char *` points to:
the number of bytes before the first NUL. -/
def strlen (s : List Byte) : Nat :=
  (s.takeWhile (fun b => b ≠ 0)).length

/-- How a reader of a returned `char *` sees it: the bytes before the first
NUL, or `none` when an indeterminate byte or the end of the allocation comes
first. -/
def c_str : List Cell → Option (List Byte)
  | [] => none
  | none :: _ => none
  | some b :: rest => if b = 0 then some [] else (c_str rest).map (fun l => b :: l)

/-! ## The environment: file system, streams, call log -/

/-- What a path names, as far as `stdio` can tell.

* `regular`: an ordinary file on disk; its end position is the number of its
  bytes and it keeps what is written to it, as far as it has room.
* `reported k`: a file that can be positioned but whose end position is `k`
  whatever bytes it delivers (a procfs file, which `stat` also calls regular,
  reports 0; a directory reports the largest `long`); written bytes are not
  kept.
* `stream`: a pipe or terminal; `fseek` and `ftell` fail on it with -1.
* `sink`: `/dev/null`; it delivers no byte and takes written bytes without
  keeping them. -/
inductive Kind where
  | regular
  | reported (endPos : Nat)
  | stream
  | sink
deriving DecidableEq, Repr

/-- A file: the bytes a read from its start delivers, whether this process
may open it for reading and for writing, its kind, and the room it has: the
number of bytes it may hold (file-size limit, free space), `none` for no
limit. -/
structure File where
  data : List Byte
  readable : Bool
  writable : Bool
  kind : Kind := Kind.regular
  room : Option Nat := none
deriving DecidableEq, Repr

/-- The file system as the process sees it: the file a path names (if any),
whether a missing path may be created, whether a path may be unlinked, and
the room a newly created file gets. -/
structure FileSystem where
  files : String → Option File
  creatable : String → Bool
  removable : String → Bool
  quota : Option Nat := none

/-- Bind `path` to the file `f`. -/
def FileSystem.put (fs : FileSystem) (path : String) (f : File) : FileSystem :=
  { fs with files := fun q => if q = path then some f else fs.files q }

/-- Unbind `path`. -/
def FileSystem.erase (fs : FileSystem) (path : String) : FileSystem :=
  { fs with files := fun q => if q = path then none else fs.files q }

/-- Whether `fopen(path, "r")` can succeed. -/
def FileSystem.canOpenRead (fs : FileSystem) (path : String) : Bool :=
  match fs.files path with
  | some f => f.readable
  | none => false

/-- Whether `fopen(path, "w")` can succeed. -/
def FileSystem.canOpenWrite (fs : FileSystem) (path : String) : Bool :=
  match fs.files path with
  | some f => f.writable
  | none => fs.creatable path

/-- The operating-system / stdio calls the sources make. -/
inductive Call where
  | fopen | fseek | ftell | fread | fwrite | fclose | remove
  | vprintf | printf | scanf
deriving DecidableEq, Repr

/-- The state the C functions run against. -/
structure World where
  fs : FileSystem
  stdin : List Byte
  stdout : List Byte
  trace : List Call

/-- Record one library call. -/
def World.log (w : World) (c : Call) : World :=
  { w with trace := w.trace ++ [c] }

/-- The two `fopen` modes the sources use. -/
inductive Mode where
  | r | w
deriving DecidableEq, Repr

/-- An open stream: the path it was opened on, its file position, and the
bytes `fwrite` has put in its buffer that are not yet in the file. -/
structure FILE where
  path : String
  pos : Nat
  pending : List Byte := []
deriving DecidableEq, Repr

/-- The `whence` values the sources use. -/
inductive Whence where
  | SEEK_SET | SEEK_END
deriving DecidableEq, Repr

/-- The file a new path gets when `fopen(path, "w")` creates it. -/
def FileSystem.created (fs : FileSystem) : File :=
  { data := [], readable := true, writable := true, kind := Kind.regular, room := fs.quota }

/-- What opening does to the file system: `none` is `NULL`.  Mode `"w"`
truncates an existing writable regular file and creates a missing file where
that is allowed. -/
def openStream (fs : FileSystem) (path : String) (mode : Mode) : Option FILE × FileSystem :=
  match mode, fs.files path with
  | Mode.r, some f =>
    if f.readable then (some { path := path, pos := 0 }, fs) else (none, fs)
  | Mode.r, none => (none, fs)
  | Mode.w, some f =>
    if f.writable then
      (some { path := path, pos := 0 },
        if f.kind = Kind.regular then fs.put path ({ f with data := [] }) else fs)
    else (none, fs)
  | Mode.w, none =>
    if fs.creatable path then (some { path := path, pos := 0 }, fs.put path fs.created)
    else (none, fs)

/-- The call `fopen(path, mode)`. -/
def fopen (w : World) (path : String) (mode : Mode) : Option FILE × World :=
  let r := openStream w.fs path mode
  (r.1, { w.log Call.fopen with fs := r.2 })

/-- Whether the file behind a stream can be positioned. -/
def seekable (fs : FileSystem) (fp : FILE) : Bool :=
  match fs.files fp.path with
  | some f => decide (f.kind ≠ Kind.stream)
  | none => false

/-- The end position of the file behind a stream. -/
def endPosition (fs : FileSystem) (fp : FILE) : Nat :=
  match fs.files fp.path with
  | some f =>
    match f.kind with
    | Kind.regular => f.data.length
    | Kind.reported k => k
    | Kind.stream => 0
    | Kind.sink => 0
  | none => 0

/-- Positioning a stream: the result of `fseek` and the stream after it. -/
def seek (fs : FileSystem) (fp : FILE) (offset : Int) (whence : Whence) : Int × FILE :=
  let base : Int :=
    match whence with
    | Whence.SEEK_SET => 0
    | Whence.SEEK_END => (endPosition fs fp : Nat)
  if seekable fs fp = true ∧ 0 ≤ base + offset then
    (0, { fp with pos := (base + offset).toNat })
  else (-1, fp)

/-- The call `fseek(fp, offset, whence)`. -/
def fseek (w : World) (fp : FILE) (offset : Int) (whence : Whence) : Int × FILE × World :=
  let r := seek w.fs fp offset whence
  (r.1, r.2, w.log Call.fseek)

/-- The call `ftell(fp)`: the file position, or -1 on a stream that cannot be
positioned. -/
def ftell (w : World) (fp : FILE) : Int × World :=
  (if seekable w.fs fp = true then ((fp.pos : Nat) : Int) else -1, w.log Call.ftell)

/-- The call `fread(buf, size, count, fp)`: the bytes from the file position
on, at most `size * count` of them, are stored into `buf`. -/
def fread (w : World) (buf : Block) (size count : Nat) (fp : FILE) :
    Nat × Block × FILE × World :=
  let data :=
    match w.fs.files fp.path with
    | some f => f.data
    | none => []
  let bytes := (data.drop fp.pos).take (size * count)
  (bytes.length / size, buf.store bytes, { fp with pos := fp.pos + bytes.length },
    w.log Call.fread)

/-- The call `fwrite(src, size, count, fp)`: the first `size * count` bytes
of `src` go to the stream buffer, and all `count` items count as written.
The buffer is taken as large enough; with more bytes than it holds `fwrite`
itself writes to the file and can report fewer items, a result that
`write_file` ignores just the same. -/
def fwrite (w : World) (src : List Byte) (size count : Nat) (fp : FILE) :
    Nat × FILE × World :=
  (count, { fp with pending := fp.pending ++ src.take (size * count) }, w.log Call.fwrite)

/-- The bytes, of those written at offset `pos`, that a file with the given
room keeps. -/
def fitting (room : Option Nat) (pos : Nat) (bytes : List Byte) : List Byte :=
  match room with
  | none => bytes
  | some r => bytes.take (r - pos)

/-- Writing out the buffer of a stream: the result of `fclose` and the file
system after it.  A regular file keeps the bytes it has room for, and the
result is -1 when some were dropped; any other kind of file takes the bytes
and keeps none. -/
def flush (fs : FileSystem) (fp : FILE) : Int × FileSystem :=
  if fp.pending = [] then (0, fs)
  else
    match fs.files fp.path with
    | some f =>
      if f.kind = Kind.regular then
        let kept := fitting f.room fp.pos fp.pending
        let data := f.data.take fp.pos ++ kept ++ f.data.drop (fp.pos + kept.length)
        (if kept.length = fp.pending.length then 0 else -1,
          fs.put fp.path ({ f with data := data }))
      else (0, fs)
    | none => (-1, fs)

/-- The call `fclose(fp)`. -/
def fclose (w : World) (fp : FILE) : Int × World :=
  let r := flush w.fs fp
  (r.1, { w.log Call.fclose with fs := r.2 })

/-- The call `remove(path)`: 0 on success, -1 on failure. -/
def remove (w : World) (path : String) : Int × World :=
  let w1 := w.log Call.remove
  match w.fs.files path with
  | some _ =>
    if w.fs.removable path then (0, { w1 with fs := w1.fs.erase path }) else (-1, w1)
  | none => (-1, w1)

/-! ## `file_system.c` -/

/-- The function `read_file` of `file_system.c`; `none` is the `NULL` return.
The `long size` goes to `malloc` and `fread` converted to `size_t`. -/
def read_file (w : World) (path : String) : Option Block × World :=
  match fopen w path Mode.r with
  | (none, w1) => (none, w1)
  | (some fp, w1) =>
    let (_, fp, w2) := fseek w1 fp 0 Whence.SEEK_END
    let (size, w3) := ftell w2 fp
    let (_, fp, w4) := fseek w3 fp 0 Whence.SEEK_SET
    let content := malloc (toSizeT (size + 1))
    let (_, content, fp, w5) := fread w4 content 1 (toSizeT size) fp
    let content := content.assign size 0
    let (_, w6) := fclose w5 fp
    (some content, w6)

/-- The function `write_file` of `file_system.c`. -/
def write_file (w : World) (path : String) (content : List Byte) : Int × World :=
  match fopen w path Mode.w with
  | (none, w1) => (-1, w1)
  | (some fp, w1) =>
    let (_, fp, w2) := fwrite w1 content 1 (strlen content) fp
    let (_, w3) := fclose w2 fp
    (0, w3)

/-- The function `delete_file` of `file_system.c`. -/
def delete_file (w : World) (path : String) : Int × World :=
  remove w path

/-! ## `io.c` -/

/-- The call `vprintf(fmt, args)`.  The text that the C library produces for a
format and its arguments is the parameter `render`. -/
def vprintf {A : Type} (render : List Byte → List A → List Byte) (w : World)
    (fmt : List Byte) (args : List A) : Int × World :=
  let out := render fmt args
  ((out.length : Nat), { w.log Call.vprintf with stdout := w.stdout ++ out })

/-- The call `printf(text)` for a format without conversion specifications:
the text itself is written. -/
def printf (w : World) (text : List Byte) : Int × World :=
  ((text.length : Nat), { w.log Call.printf with stdout := w.stdout ++ text })

/-- The function `print` of `io.c`. -/
def print {A : Type} (render : List Byte → List A → List Byte) (w : World)
    (fmt : List Byte) (args : List A) : Int × World :=
  let (_, w1) := vprintf render w fmt args
  (0, w1)

/-- The function `println` of `io.c`. -/
def println {A : Type} (render : List Byte → List A → List Byte) (w : World)
    (fmt : List Byte) (args : List A) : Int × World :=
  let (_, w1) := vprintf render w fmt args
  let (_, w2) := printf w1 [10]
  (0, w2)

/-- The calls `scanf("%d", &i)` and `scanf("%f", &f)`.  The numeric conversion
of the C library is the parameter `conv`: from the pending input it gives the
return code of `scanf`, the converted value (`none` when nothing is
converted) and the input left over.  The destination keeps its old value when
nothing is converted. -/
def scanf_num {V : Type} (conv : List Byte → Int × Option V × List Byte) (w : World)
    (dst : Option V) : Int × Option V × World :=
  let w1 := w.log Call.scanf
  match conv w.stdin with
  | (code, some v, rest) => (code, some v, { w1 with stdin := rest })
  | (code, none, rest) => (code, dst, { w1 with stdin := rest })

/-- The call `scanf("%c", &c)`. -/
def scanf_c (w : World) (dst : Cell) : Int × Cell × World :=
  let w1 := w.log Call.scanf
  match w.stdin with
  | [] => (-1, dst, w1)
  | b :: rest => (1, some b, { w1 with stdin := rest })

/-- The call `scanf("%[^\n]%*c", str)`.  The directive `%[^\n]` matches the
longest non-empty run of bytes other than newline (byte 10) and stores it,
followed by a NUL, at `str`, with no bound on its length; `%*c` then discards
one byte.  At end of input the call fails with `EOF`; when the first byte is a
newline the first directive fails to match, so nothing is stored and nothing
is consumed. -/
def scanf_line (w : World) (str : Block) : Int × Block × World :=
  let w1 := w.log Call.scanf
  match w.stdin with
  | [] => (-1, str, w1)
  | _ :: _ =>
    let line := w.stdin.takeWhile (fun b => b ≠ 10)
    let rest := w.stdin.dropWhile (fun b => b ≠ 10)
    if line = [] then (0, str, w1)
    else (1, str.store (line ++ [0]), { w1 with stdin := rest.drop 1 })

/-- The function `input_int` of `io.c`; `none` is the indeterminate value of
the uninitialised local. -/
def input_int (conv : List Byte → Int × Option Int × List Byte) (w : World) :
    Option Int × World :=
  let i : Option Int := none
  let (_, i, w1) := scanf_num conv w i
  (i, w1)

/-- The function `input_float` of `io.c`, over any type `F` of C `float`
values. -/
def input_float {F : Type} (conv : List Byte → Int × Option F × List Byte) (w : World) :
    Option F × World :=
  let f : Option F := none
  let (_, f, w1) := scanf_num conv w f
  (f, w1)

/-- The function `input_char` of `io.c`. -/
def input_char (w : World) : Cell × World :=
  let c : Cell := none
  let (_, c, w1) := scanf_c w c
  (c, w1)

/-- The function `input_string` of `io.c`. -/
def input_string (w : World) : Block × World :=
  let str := malloc 100
  let (_, str, w1) := scanf_line w str
  (str, w1)

/-! ## `os.c` -/

/-- The preprocessor symbols `platform` tests.  Each is undefined (`none`) or
defined with an integer value (`some v`); compilers predefine them as 1.  A
definition that is not an integer constant makes a reached `#elif` ill-formed,
so that no `platform` is compiled; it is outside this model. -/
structure PlatformDefs where
  _WIN32 : Option Int
  _WIN64 : Option Int
  __APPLE__ : Option Int
  __MACH__ : Option Int
  __linux__ : Option Int
  __unix__ : Option Int
  __posix : Option Int
  __FreeBSD__ : Option Int
  __OpenBSD__ : Option Int
  __NetBSD__ : Option Int
  __DragonFly__ : Option Int
  __sun : Option Int
deriving DecidableEq, Repr

/-- The test `#ifdef X`: whether the symbol is defined. -/
def ifdef (x : Option Int) : Bool :=
  x.isSome

/-- The test `#elif X`: whether the symbol's value is non-zero, an undefined
symbol counting as 0. -/
def elifv (x : Option Int) : Bool :=
  decide (x.getD 0 ≠ 0)

/-- The function `platform` of `os.c`. -/
def platform (d : PlatformDefs) : String :=
  if ifdef d._WIN32 then "win32"
  else if elifv d._WIN64 then "win64"
  else if elifv d.__APPLE__ || elifv d.__MACH__ then "darwin"
  else if elifv d.__linux__ then "linux"
  else if elifv d.__unix__ then "unix"
  else if elifv d.__posix then "posix"
  else if elifv d.__FreeBSD__ then "freebsd"
  else if elifv d.__OpenBSD__ then "openbsd"
  else if elifv d.__NetBSD__ then "netbsd"
  else if elifv d.__DragonFly__ then "dragonfly"
  else if elifv d.__sun then "sunos"
  else "unknown"

/-- The record `struct Person` of `os.c`. -/
structure Person where
  a : Int
deriving DecidableEq, Repr

/-- A `struct Person *`: an address. -/
abbrev PersonPtr := Nat

/-- The records in memory, by address. -/
abbrev PersonHeap := PersonPtr → Option Person

/-- The function `accept_obj` of `os.c`: the result and the memory after the
call. -/
def accept_obj (heap : PersonHeap) (x : PersonPtr) : PersonPtr × PersonHeap :=
  let r := x
  (r, heap)

/-! ## `vm.cpp` -/

/-- The function `VM` of `vm.cpp`, as a transformer of the text written to
standard output so far.  `getenv` gives `none` for an unset variable;
constructing a `std::string` from that null pointer is undefined, which is
the result `none`. -/
def VM (getenv : String → Option String) (cout : String) : Option String :=
  match getenv "bze_name" with
  | none => none
  | some name =>
    match getenv "bze_content" with
    | none => none
    | some content =>
      some (cout ++ "---Blaze Virtual Machine---" ++ "\n"
        ++ "Version: 0.0.1" ++ "\n"
        ++ "File: " ++ name ++ "\n"
        ++ "Content: " ++ content ++ "\n")

/-! ## Specification-side definitions -/

/-- The strings the specification lists for `platform`. -/
def platformNames : List String :=
  ["win32", "win64", "darwin", "linux", "unix", "posix", "freebsd", "openbsd",
    "netbsd", "dragonfly", "sunos", "unknown"]

/-- The tests of `platform` in the order the specification gives, each with
the string it selects. -/
def platformTests (d : PlatformDefs) : List (Bool × String) :=
  [(ifdef d._WIN32, "win32"), (elifv d._WIN64, "win64"),
    (elifv d.__APPLE__ || elifv d.__MACH__, "darwin"), (elifv d.__linux__, "linux"),
    (elifv d.__unix__, "unix"), (elifv d.__posix, "posix"),
    (elifv d.__FreeBSD__, "freebsd"), (elifv d.__OpenBSD__, "openbsd"),
    (elifv d.__NetBSD__, "netbsd"), (elifv d.__DragonFly__, "dragonfly"),
    (elifv d.__sun, "sunos")]

/-- First-match resolution as the specification words it: the string of the
first satisfied test, `"unknown"` when no test is satisfied. -/
def firstSatisfied : List (Bool × String) → String
  | [] => "unknown"
  | (ok, name) :: rest => if ok then name else firstSatisfied rest

/-- A symbol that does not satisfy an `#elif X` test: undefined, or defined
as 0. -/
def notSet (x : Option Int) : Prop :=
  x = none ∨ x = some 0

/-- The calls one invocation added to the log. -/
def callsMade (before after : World) : List Call :=
  after.trace.drop before.trace.length

/-- The four banner lines of `VM` for a file name and a content. -/
def bannerLines (n c : String) : List String :=
  ["---Blaze Virtual Machine---", "Version: 0.0.1", "File: " ++ n, "Content: " ++ c]

/-- Text made of the given lines, each ended by a newline. -/
def unlines (ls : List String) : String :=
  ls.foldl (fun acc l => acc ++ l ++ "\n") ""

/-! ## Concrete states used to exercise the theorems -/

/-- A small file system: a readable and writable `notes.txt` holding "hi", a
write-only `out.log`, a read-only `ro.txt`; only `new.txt` may be created and
only `notes.txt` may be removed. -/
def sampleFS : FileSystem :=
  { files := fun p =>
      if p = "notes.txt" then some { data := [104, 105], readable := true, writable := true }
      else if p = "out.log" then some { data := [], readable := false, writable := true }
      else if p = "ro.txt" then some { data := [1], readable := true, writable := false }
      else none
    creatable := fun p => decide (p = "new.txt")
    removable := fun p => decide (p = "notes.txt") }

/-- The sample file system with empty console streams and an empty call log. -/
def sampleWorld : World :=
  { fs := sampleFS, stdin := [], stdout := [], trace := [] }

/-- Standard input whose next byte is already a newline. -/
def newlineFirstWorld : World :=
  { sampleWorld with stdin := [10, 97, 10] }

/-- Standard input whose next line is 100 letters `a` long. -/
def longLineWorld : World :=
  { sampleWorld with stdin := List.replicate 100 97 ++ [10] }

/-- Standard input holding the line "ok". -/
def shortLineWorld : World :=
  { sampleWorld with stdin := [111, 107, 10, 120] }

/-- A process environment with both banner variables set. -/
def sampleEnv : String → Option String := fun k =>
  if k = "bze_name" then some "main.bzx"
  else if k = "bze_content" then some "println(1)"
  else none

/-- No platform symbol defined. -/
def noDefs : PlatformDefs :=
  { _WIN32 := none, _WIN64 := none, __APPLE__ := none, __MACH__ := none,
    __linux__ := none, __unix__ := none, __posix := none, __FreeBSD__ := none,
    __OpenBSD__ := none, __NetBSD__ := none, __DragonFly__ := none, __sun := none }

/-- Only `_WIN64` defined, with value 0 (as by `-D_WIN64=0`). -/
def win64ZeroDefs : PlatformDefs :=
  { noDefs with _WIN64 := some 0 }

/-- A Linux compiler: `__linux__` and `__unix__` both predefined as 1. -/
def linuxDefs : PlatformDefs :=
  { noDefs with __linux__ := some 1, __unix__ := some 1 }

/-- A 64-bit target that predefines `_WIN64` but not `_WIN32`. -/
def win64OnlyDefs : PlatformDefs :=
  { noDefs with _WIN64 := some 1 }

/-- A Solaris compiler without the generic Unix symbols. -/
def sunDefs : PlatformDefs :=
  { noDefs with __sun := some 1 }

/-- A memory with one `Person` record, at address 16. -/
def sampleHeap : PersonHeap := fun p =>
  if p = 16 then some { a := 7 } else none

/-- A formatter that prints the format text as it is. -/
def plainRender : List Byte → List Unit → List Byte := fun fmt _ => fmt


/-- The file left behind when the file `f` is opened with mode `"w"`, `bytes`
are written to the stream and the stream is closed. -/
def File.rewritten (f : File) (bytes : List Byte) : File :=
  if f.kind = Kind.regular then { f with data := fitting f.room 0 bytes } else f

/-- Whether a file keeps `n` written bytes: it is an ordinary file on disk
(`Kind.regular`) with room for them. -/
def File.takes (g : File) (n : Nat) : Bool :=
  decide (g.kind = Kind.regular) &&
    (match g.room with
     | none => true
     | some r => decide (n ≤ r))

/-- A world whose only file, `quota.txt`, holds "old" and is under a
file-size limit of 0 bytes. -/
def quotaWorld : World :=
  { fs :=
      { files := fun p =>
          if p = "quota.txt" then
            some { data := [111, 108, 100], readable := true, writable := true, room := some 0 }
          else none
        creatable := fun _ => false
        removable := fun _ => false }
    stdin := [], stdout := [], trace := [] }

/-- A world with files that are not regular: the procfs file `/proc/version`,
which delivers "Linux" and reports the end position 0; `/dev/null`; the
directory `/tmp`, which reports the largest `long` as its end position; and a
pipe `fifo` holding "hi". -/
def specialWorld : World :=
  { fs :=
      { files := fun p =>
          if p = "/proc/version" then
            some { data := [76, 105, 110, 117, 120], readable := true, writable := false,
                   kind := Kind.reported 0 }
          else if p = "/dev/null" then
            some { data := [], readable := true, writable := true, kind := Kind.sink }
          else if p = "/tmp" then
            some { data := [], readable := true, writable := false,
                   kind := Kind.reported 9223372036854775807 }
          else if p = "fifo" then
            some { data := [104, 105], readable := true, writable := true, kind := Kind.stream }
          else none
        creatable := fun _ => false
        removable := fun _ => false }
    stdin := [], stdout := [], trace := [] }

/-! ## Lemmas on the environment model -/

theorem take_takeWhile_length {α : Type} (p : α → Bool) (l : List α) :
    l.take (l.takeWhile p).length = l.takeWhile p := by
  induction l with
  | nil => simp
  | cons x xs ih =>
    by_cases hx : p x = true
    · simp [List.takeWhile_cons, hx, ih]
    · simp [List.takeWhile_cons, hx]

theorem takeWhile_ne_zero_of_not_mem (l : List Byte) (h : (0 : Byte) ∉ l) :
    l.takeWhile (fun b => b ≠ 0) = l := by
  rw [List.takeWhile_eq_self_iff]
  intro x hx
  have hne : x ≠ 0 := fun e => h (e ▸ hx)
  simpa using hne

theorem c_str_terminated (l : List Byte) (h : (0 : Byte) ∉ l) (tail : List Cell) :
    c_str (l.map some ++ some 0 :: tail) = some l := by
  induction l with
  | nil => simp [c_str]
  | cons x xs ih =>
    simp only [List.mem_cons, not_or] at h
    have hx : x ≠ 0 := fun e => h.1 e.symm
    simp [c_str, hx, ih h.2]

theorem toSizeT_natCast (n : Nat) (h : n < 18446744073709551616) :
    toSizeT (n : Int) = n := by
  unfold toSizeT
  omega

theorem toSizeT_natCast_succ (n : Nat) (h : n + 1 < 18446744073709551616) :
    toSizeT ((n : Int) + 1) = n + 1 := by
  unfold toSizeT
  omega

theorem malloc_ok (n : Nat) (h : n ≤ PTRDIFF_MAX) :
    malloc n = { cells := List.replicate n none, overrun := false } := by
  simp [malloc, h]

theorem store_malloc (n : Nat) (bytes : List Byte) (h : bytes.length ≤ n)
    (hn : n ≤ PTRDIFF_MAX) :
    (malloc n).store bytes
      = { cells := bytes.map some ++ List.replicate (n - bytes.length) none,
          overrun := false } := by
  rw [malloc_ok n hn]
  simp [Block.store, h, List.drop_replicate]

theorem store_assign_malloc (data : List Byte) (h : data.length + 1 ≤ PTRDIFF_MAX) :
    ((malloc (data.length + 1)).store data).assign (data.length : Nat) 0
      = { cells := data.map some ++ [some 0], overrun := false } := by
  rw [store_malloc _ data (Nat.le_succ _) h]
  simp [Block.assign]

theorem callsMade_append (w v : World) (l : List Call) (h : v.trace = w.trace ++ l) :
    callsMade w v = l := by
  simp [callsMade, h]

theorem fitting_of_le (room : Option Nat) (bytes : List Byte)
    (h : ∀ r, room = some r → bytes.length ≤ r) : fitting room 0 bytes = bytes := by
  cases room with
  | none => rfl
  | some r =>
    have := h r rfl
    simp [fitting, List.take_of_length_le this]

/-! ## Behaviour of the file functions, case by case -/

theorem fopen_trace (w : World) (path : String) (mode : Mode) :
    (fopen w path mode).2.trace = w.trace ++ [Call.fopen] := rfl

theorem fseek_world (w : World) (fp : FILE) (offset : Int) (whence : Whence) :
    (fseek w fp offset whence).2.2 = w.log Call.fseek := rfl

theorem ftell_world (w : World) (fp : FILE) : (ftell w fp).2 = w.log Call.ftell := rfl

theorem fread_world (w : World) (buf : Block) (size count : Nat) (fp : FILE) :
    (fread w buf size count fp).2.2.2 = w.log Call.fread := rfl

theorem fwrite_world (w : World) (src : List Byte) (size count : Nat) (fp : FILE) :
    (fwrite w src size count fp).2.2 = w.log Call.fwrite := rfl

theorem fclose_trace (w : World) (fp : FILE) :
    (fclose w fp).2.trace = w.trace ++ [Call.fclose] := rfl

theorem canOpenRead_true_iff (fs : FileSystem) (path : String) :
    fs.canOpenRead path = true ↔ ∃ f, fs.files path = some f ∧ f.readable = true := by
  unfold FileSystem.canOpenRead
  cases hf : fs.files path <;> simp

theorem fopen_read_some (w : World) (path : String) (f : File)
    (hf : w.fs.files path = some f) (hr : f.readable = true) :
    fopen w path Mode.r = (some { path := path, pos := 0 }, w.log Call.fopen) := by
  simp [fopen, openStream, hf, hr, World.log]

theorem read_file_none (w : World) (path : String)
    (h : w.fs.canOpenRead path = false) :
    read_file w path = (none, w.log Call.fopen) := by
  unfold FileSystem.canOpenRead at h
  cases hf : w.fs.files path with
  | none => simp [read_file, fopen, openStream, hf, World.log]
  | some f =>
    have h2 : f.readable = false := by simpa [hf] using h
    simp [read_file, fopen, openStream, hf, h2, World.log]

theorem read_file_trace (w : World) (path : String)
    (h : w.fs.canOpenRead path = true) :
    (read_file w path).2.trace = w.trace ++ [Call.fopen, Call.fseek, Call.ftell, Call.fseek,
      Call.fread, Call.fclose] := by
  obtain ⟨f, hf, hr⟩ := (canOpenRead_true_iff _ _).1 h
  unfold read_file
  rw [fopen_read_some w path f hf hr]
  simp only [fclose_trace, fread_world, fseek_world, ftell_world, World.log, List.append_assoc,
    List.cons_append, List.nil_append]

theorem read_file_some (w : World) (path : String) (f : File)
    (hf : w.fs.files path = some f) (hr : f.readable = true)
    (hk : f.kind = Kind.regular) (hlen : f.data.length < PTRDIFF_MAX) :
    read_file w path =
      (some { cells := f.data.map some ++ [some 0], overrun := false },
        { w with trace := w.trace ++ [Call.fopen, Call.fseek, Call.ftell, Call.fseek,
            Call.fread, Call.fclose] }) := by
  have hlen2 : f.data.length < 9223372036854775807 := hlen
  have hs1 : toSizeT ((f.data.length : Nat) : Int) = f.data.length :=
    toSizeT_natCast _ (by omega)
  have hs2 : toSizeT (((f.data.length : Nat) : Int) + 1) = f.data.length + 1 :=
    toSizeT_natCast_succ _ (by omega)
  have hnn : (0 : Int) ≤ (f.data.length : Nat) := by omega
  unfold read_file
  rw [fopen_read_some w path f hf hr]
  simp [fseek, seek, seekable, endPosition, ftell, fread, fclose, flush, World.log, hf, hk,
    hnn, hs1, hs2, store_assign_malloc f.data (by unfold PTRDIFF_MAX; omega)]

theorem write_file_refused (w : World) (path : String) (content : List Byte)
    (h : w.fs.canOpenWrite path = false) :
    write_file w path content = (-1, w.log Call.fopen) := by
  unfold FileSystem.canOpenWrite at h
  cases hf : w.fs.files path with
  | none =>
    have h2 : w.fs.creatable path = false := by simpa [hf] using h
    simp [write_file, fopen, openStream, hf, h2, World.log]
  | some f =>
    have h2 : f.writable = false := by simpa [hf] using h
    simp [write_file, fopen, openStream, hf, h2, World.log]

theorem openStream_write_some (fs : FileSystem) (path : String)
    (h : fs.canOpenWrite path = true) :
    (openStream fs path Mode.w).1 = some { path := path, pos := 0 } := by
  unfold FileSystem.canOpenWrite at h
  cases hf : fs.files path with
  | none =>
    have h2 : fs.creatable path = true := by simpa [hf] using h
    simp [openStream, hf, h2]
  | some f =>
    have h2 : f.writable = true := by simpa [hf] using h
    simp [openStream, hf, h2]

/-- When the file can be opened for writing, `write_file` returns 0, makes
three library calls, and leaves the file system that flushing the bytes of
`content` into the opened file gives. -/
theorem write_file_opened (w : World) (path : String) (content : List Byte)
    (h : w.fs.canOpenWrite path = true) :
    (write_file w path content).1 = 0 ∧
    (write_file w path content).2.trace
      = w.trace ++ [Call.fopen, Call.fwrite, Call.fclose] ∧
    (write_file w path content).2.fs
      = (flush (openStream w.fs path Mode.w).2
          { path := path, pos := 0, pending := content.takeWhile (fun b => b ≠ 0) }).2 := by
  have ho := openStream_write_some w.fs path h
  unfold write_file fopen
  rcases hr : openStream w.fs path Mode.w with ⟨o, fs1⟩
  rw [hr] at ho
  simp only at ho
  subst ho
  simp only [fwrite, fclose, World.log, strlen, List.nil_append, Nat.one_mul,
    take_takeWhile_length, List.append_assoc, List.cons_append, and_self]

theorem flush_fresh (fs : FileSystem) (path : String) (bytes : List Byte) (f0 : File)
    (hf : fs.files path = some f0) (hd : f0.kind = Kind.regular → f0.data = []) :
    (flush fs { path := path, pos := 0, pending := bytes }).2.files path
      = some (if f0.kind = Kind.regular then { f0 with data := fitting f0.room 0 bytes }
              else f0) := by
  have hnil : ∀ room : Option Nat, fitting room 0 [] = [] := by
    intro room
    cases room <;> simp [fitting]
  unfold flush
  by_cases hp : bytes = []
  · subst hp
    simp only [if_true, hf, hnil]
    by_cases hk : f0.kind = Kind.regular
    · rw [if_pos hk, ← hd hk]
    · rw [if_neg hk]
  · by_cases hk : f0.kind = Kind.regular
    · simp [hp, hf, hk, hd hk, FileSystem.put]
    · simp [hp, hf, hk]

theorem write_file_existing (w : World) (path : String) (content : List Byte) (f : File)
    (hf : w.fs.files path = some f) (hw : f.writable = true) :
    (write_file w path content).2.fs.files path
      = some (f.rewritten (content.takeWhile (fun b => b ≠ 0))) := by
  have hc : w.fs.canOpenWrite path = true := by simp [FileSystem.canOpenWrite, hf, hw]
  rw [(write_file_opened w path content hc).2.2]
  by_cases hk : f.kind = Kind.regular
  · have ho : (openStream w.fs path Mode.w).2 = w.fs.put path ({ f with data := [] }) := by
      simp [openStream, hf, hw, hk]
    rw [ho, flush_fresh _ path _ ({ f with data := [] }) (by simp [FileSystem.put])
      (fun _ => rfl)]
    simp [File.rewritten, hk]
  · have ho : (openStream w.fs path Mode.w).2 = w.fs := by
      simp [openStream, hf, hw, hk]
    rw [ho, flush_fresh _ path _ f hf (fun h => absurd h hk)]
    simp [File.rewritten, hk]

theorem write_file_created (w : World) (path : String) (content : List Byte)
    (hf : w.fs.files path = none) (hc : w.fs.creatable path = true) :
    (write_file w path content).2.fs.files path
      = some (w.fs.created.rewritten (content.takeWhile (fun b => b ≠ 0))) := by
  have hcw : w.fs.canOpenWrite path = true := by simp [FileSystem.canOpenWrite, hf, hc]
  rw [(write_file_opened w path content hcw).2.2]
  have ho : (openStream w.fs path Mode.w).2 = w.fs.put path w.fs.created := by
    simp [openStream, hf, hc]
  rw [ho, flush_fresh _ path _ w.fs.created (by simp [FileSystem.put]) (fun _ => rfl)]
  simp [File.rewritten, FileSystem.created]

theorem rewritten_takes (f : File) (bytes : List Byte) (n : Nat)
    (h : (f.rewritten bytes).takes n = true) (hb : bytes.length ≤ n) :
    (f.rewritten bytes).kind = Kind.regular ∧ (f.rewritten bytes).data = bytes := by
  unfold File.rewritten at h ⊢
  by_cases hk : f.kind = Kind.regular
  · rw [if_pos hk] at h ⊢
    refine ⟨hk, ?_⟩
    apply fitting_of_le
    intro r hr
    simp only [File.takes, hr, Bool.and_eq_true, decide_eq_true_eq] at h
    omega
  · rw [if_neg hk] at h
    simp [File.takes, hk] at h

theorem read_file_ne_none (w : World) (path : String)
    (h : w.fs.canOpenRead path = true) : (read_file w path).1 ≠ none := by
  obtain ⟨f, hf, hr⟩ := (canOpenRead_true_iff _ _).1 h
  unfold read_file
  rw [fopen_read_some w path f hf hr]
  simp

/-! ## C1: write, then read -/

/-- Claim C1 as stated fails: `out.log` can be opened for writing and
`write_file` returns 0 on it, yet the file is write-only, so the following
`read_file` finds `fopen(path, "r")` refused and returns `NULL`. -/
theorem write_then_read_write_only :
    sampleWorld.fs.canOpenWrite "out.log" = true ∧
    (0 : Byte) ∉ ([104, 105] : List Byte) ∧
    (write_file sampleWorld "out.log" [104, 105]).1 = 0 ∧
    (read_file (write_file sampleWorld "out.log" [104, 105]).2 "out.log").1 = none := by
  have hw : sampleWorld.fs.canOpenWrite "out.log" = true := by decide
  have hpost := write_file_existing sampleWorld "out.log" [104, 105]
    { data := [], readable := false, writable := true } (by decide) rfl
  refine ⟨hw, by decide, (write_file_opened sampleWorld "out.log" [104, 105] hw).1, ?_⟩
  rw [read_file_none]
  simp only [FileSystem.canOpenRead, hpost]
  decide

/-- Claim C1 (amended): for every path and every content without a NUL byte
(and shorter than the largest allocation), if `write_file(path, content)`
returns 0 and the file that the path then names can be opened for reading and
is an ordinary disk file with room for all of `content`, then the following
`read_file(path)` returns a non-null buffer, written within its bounds, whose
bytes up to the first NUL are exactly `content`. -/
theorem write_then_read_roundtrip (w : World) (path : String) (content : List Byte)
    (hnul : (0 : Byte) ∉ content)
    (hsize : content.length < PTRDIFF_MAX)
    (hret : (write_file w path content).1 = 0)
    (hread : (write_file w path content).2.fs.canOpenRead path = true)
    (htakes : ∀ g : File, (write_file w path content).2.fs.files path = some g →
      g.takes content.length = true) :
    ∃ b : Block, (read_file (write_file w path content).2 path).1 = some b ∧
      b.overrun = false ∧ c_str b.cells = some content := by
  obtain ⟨g, hg, hgr⟩ := (canOpenRead_true_iff _ _).1 hread
  have hgt := htakes g hg
  have hbytes := takeWhile_ne_zero_of_not_mem content hnul
  have hopen : w.fs.canOpenWrite path = true := by
    cases hc : w.fs.canOpenWrite path with
    | true => rfl
    | false =>
      rw [write_file_refused w path content hc] at hret
      simp at hret
  have hg2 : g.kind = Kind.regular ∧ g.data = content := by
    unfold FileSystem.canOpenWrite at hopen
    cases hf : w.fs.files path with
    | none =>
      rw [hf] at hopen
      rw [write_file_created w path content hf hopen, hbytes] at hg
      simp only [Option.some.injEq] at hg
      rw [← hg] at hgt ⊢
      exact rewritten_takes _ content _ hgt (Nat.le_refl _)
    | some f =>
      rw [hf] at hopen
      rw [write_file_existing w path content f hf hopen, hbytes] at hg
      simp only [Option.some.injEq] at hg
      rw [← hg] at hgt ⊢
      exact rewritten_takes _ content _ hgt (Nat.le_refl _)
  refine ⟨{ cells := g.data.map some ++ [some 0], overrun := false }, ?_, rfl, ?_⟩
  · rw [read_file_some _ path g hg hgr hg2.1 (by rw [hg2.2]; exact hsize)]
  · rw [hg2.2]
    exact c_str_terminated content hnul []

/-- Witness for C1 (amended): writing "hi" to the creatable `new.txt` of the
sample world. -/
theorem write_then_read_roundtrip_witness :
    ((0 : Byte) ∉ ([104, 105] : List Byte) ∧
      ([104, 105] : List Byte).length < PTRDIFF_MAX ∧
      (write_file sampleWorld "new.txt" [104, 105]).1 = 0 ∧
      (write_file sampleWorld "new.txt" [104, 105]).2.fs.canOpenRead "new.txt" = true ∧
      ∀ g : File, (write_file sampleWorld "new.txt" [104, 105]).2.fs.files "new.txt" = some g →
        g.takes ([104, 105] : List Byte).length = true) ∧
    ∃ b : Block, (read_file (write_file sampleWorld "new.txt" [104, 105]).2 "new.txt").1 = some b ∧
      b.overrun = false ∧ c_str b.cells = some [104, 105] :=
  have hpost : (write_file sampleWorld "new.txt" [104, 105]).2.fs.files "new.txt"
      = some { data := [104, 105], readable := true, writable := true } := by
    rw [write_file_created sampleWorld "new.txt" [104, 105] (by decide) (by decide)]
    decide
  have hret : (write_file sampleWorld "new.txt" [104, 105]).1 = 0 :=
    (write_file_opened sampleWorld "new.txt" [104, 105] (by decide)).1
  have hread : (write_file sampleWorld "new.txt" [104, 105]).2.fs.canOpenRead "new.txt" = true := by
    simp only [FileSystem.canOpenRead, hpost]
  have htakes : ∀ g : File,
      (write_file sampleWorld "new.txt" [104, 105]).2.fs.files "new.txt" = some g →
        g.takes ([104, 105] : List Byte).length = true := by
    intro g hg
    rw [hpost] at hg
    simp only [Option.some.injEq] at hg
    rw [← hg]
    decide
  ⟨⟨by decide, by decide, hret, hread, htakes⟩,
   write_then_read_roundtrip sampleWorld "new.txt" [104, 105] (by decide) (by decide)
    hret hread htakes⟩

/-! ## C2: `read_file` -/

/-- Claim C2 as stated fails: the procfs file `/proc/version` can be opened
for reading and delivers the five bytes "Linux", but it reports the end
position 0, so `read_file` allocates one byte, reads nothing and returns the
empty string: neither `NULL` nor the contents of the file. -/
theorem read_file_unsized_file :
    specialWorld.fs.canOpenRead "/proc/version" = true ∧
    specialWorld.fs.files "/proc/version"
      = some { data := [76, 105, 110, 117, 120], readable := true, writable := false,
               kind := Kind.reported 0 } ∧
    (read_file specialWorld "/proc/version").1 = some { cells := [some 0], overrun := false } := by
  refine ⟨by decide, by decide, ?_⟩
  decide

/-- Other files that are not regular.  On a directory the end position is
the largest `long`, `malloc` returns `NULL` and the store of the terminator
is out of bounds; on a pipe `ftell` gives -1, so nothing is allocated and
both `fread` and the store of the terminator are out of bounds; `/dev/null`
takes "hi" with result 0 and reads back as the empty string. -/
theorem read_file_special_files :
    (read_file specialWorld "/tmp").1 = some { cells := [], overrun := true } ∧
    (read_file specialWorld "fifo").1 = some { cells := [], overrun := true } ∧
    (write_file specialWorld "/dev/null" [104, 105]).1 = 0 ∧
    (read_file (write_file specialWorld "/dev/null" [104, 105]).2 "/dev/null").1
      = some { cells := [some 0], overrun := false } := by
  decide

/-- Claim C2 (amended): `read_file(path)` returns `NULL` exactly when the file
cannot be opened for reading; otherwise, for an ordinary disk file of `n`
bytes (its end position is `n`, and `n + 1` is within what `malloc` grants),
it returns a buffer of `n + 1`
bytes, written within its bounds, whose first `n` bytes are the file's bytes
in order and whose byte at index `n` is 0.  (On an opened file that is not
regular the result is not `NULL` either; it may be a block marked `overrun`,
which stands for a run that crashed.) -/
theorem read_file_whole_or_null (w : World) (path : String) :
    ((read_file w path).1 = none ↔ w.fs.canOpenRead path = false) ∧
    (∀ f : File, w.fs.files path = some f → f.readable = true →
      f.kind = Kind.regular → f.data.length < PTRDIFF_MAX →
      ∃ b : Block, (read_file w path).1 = some b ∧
        b.overrun = false ∧
        b.cells.length = f.data.length + 1 ∧
        b.cells.take f.data.length = f.data.map some ∧
        b.cells[f.data.length]? = some (some 0)) := by
  constructor
  · constructor
    · intro h
      cases hc : w.fs.canOpenRead path with
      | false => rfl
      | true => exact absurd h (read_file_ne_none w path hc)
    · intro h
      rw [read_file_none w path h]
  · intro f hf hr hk hlen
    refine ⟨{ cells := f.data.map some ++ [some 0], overrun := false }, ?_, rfl, ?_, ?_, ?_⟩
    · rw [read_file_some w path f hf hr hk hlen]
    · simp
    · simp
    · simp [List.getElem?_append_right]

/-- Witness for C2 (amended): reading `notes.txt` ("hi") in the sample
world. -/
theorem read_file_whole_or_null_witness :
    (sampleWorld.fs.files "notes.txt"
        = some { data := [104, 105], readable := true, writable := true } ∧
      ([104, 105] : List Byte).length < PTRDIFF_MAX) ∧
    ∃ b : Block, (read_file sampleWorld "notes.txt").1 = some b ∧
      b.overrun = false ∧
      b.cells.length = 2 + 1 ∧
      b.cells.take 2 = [some 104, some 105] ∧
      b.cells[2]? = some (some 0) :=
  ⟨⟨by decide, by decide⟩,
   (read_file_whole_or_null sampleWorld "notes.txt").2
    { data := [104, 105], readable := true, writable := true } (by decide) rfl rfl
    (by decide)⟩

/-! ## C3: `write_file` -/

/-- Claim C3 fails on the code: `quota.txt` is a writable regular file under
a file-size limit of 0 bytes.  `fopen` truncates it, `fwrite` reports both
bytes of "hi" as written, the flush in `fclose` drops them and returns -1,
and `write_file`, which looks at neither result, returns 0 with the file left
empty.  The failure of `fopen`, on the read-only `ro.txt`, is signalled by
-1. -/
theorem write_file_unsignalled_error :
    (write_file sampleWorld "ro.txt" [104, 105]).1 = -1 ∧
    quotaWorld.fs.canOpenWrite "quota.txt" = true ∧
    (write_file quotaWorld "quota.txt" [104, 105]).1 = 0 ∧
    (write_file quotaWorld "quota.txt" [104, 105]).2.fs.files "quota.txt"
      = some { data := [], readable := true, writable := true, room := some 0 } ∧
    (fopen quotaWorld "quota.txt" Mode.w).1 = some { path := "quota.txt", pos := 0 } ∧
    (fwrite (fopen quotaWorld "quota.txt" Mode.w).2 [104, 105] 1 (strlen [104, 105])
      { path := "quota.txt", pos := 0 }).1 = 2 ∧
    (fclose
      (fwrite (fopen quotaWorld "quota.txt" Mode.w).2 [104, 105] 1 (strlen [104, 105])
        { path := "quota.txt", pos := 0 }).2.2
      (fwrite (fopen quotaWorld "quota.txt" Mode.w).2 [104, 105] 1 (strlen [104, 105])
        { path := "quota.txt", pos := 0 }).2.1).1 = -1 := by
  decide

/-! ## C4: `delete_file` -/

/-- Claim C4: for a path that names no file, `delete_file` returns the result
of the failed `remove`, which is non-zero and negative, and the file system
is unchanged; for a path that names a removable file it returns 0 and a
following `read_file` of the path returns `NULL`. -/
theorem delete_file_result (w : World) (path : String) :
    (w.fs.files path = none →
      (delete_file w path).1 = (remove w path).1 ∧
      (delete_file w path).1 ≠ 0 ∧ (delete_file w path).1 < 0 ∧
      (delete_file w path).2.fs = w.fs) ∧
    (∀ f : File, w.fs.files path = some f → w.fs.removable path = true →
      (delete_file w path).1 = 0 ∧
      (read_file (delete_file w path).2 path).1 = none) := by
  constructor
  · intro h
    simp [delete_file, remove, h, World.log]
  · intro f hf hr
    have hd : delete_file w path = (0, { w.log Call.remove with fs := w.fs.erase path }) := by
      simp [delete_file, remove, hf, hr, World.log]
    rw [hd]
    refine ⟨rfl, ?_⟩
    rw [read_file_none]
    simp [FileSystem.canOpenRead, FileSystem.erase]

/-- Witness for C4: `gone.txt` names no file in the sample world, and
`notes.txt` names a removable one. -/
theorem delete_file_result_witness :
    (sampleWorld.fs.files "gone.txt" = none ∧
      sampleWorld.fs.files "notes.txt"
        = some { data := [104, 105], readable := true, writable := true } ∧
      sampleWorld.fs.removable "notes.txt" = true) ∧
    ((delete_file sampleWorld "gone.txt").1 = (remove sampleWorld "gone.txt").1 ∧
      (delete_file sampleWorld "gone.txt").1 ≠ 0 ∧ (delete_file sampleWorld "gone.txt").1 < 0 ∧
      (delete_file sampleWorld "gone.txt").2.fs = sampleWorld.fs) ∧
    ((delete_file sampleWorld "notes.txt").1 = 0 ∧
      (read_file (delete_file sampleWorld "notes.txt").2 "notes.txt").1 = none) :=
  ⟨⟨by decide, by decide, by decide⟩,
   (delete_file_result sampleWorld "gone.txt").1 (by decide),
   (delete_file_result sampleWorld "notes.txt").2
     { data := [104, 105], readable := true, writable := true } (by decide) (by decide)⟩

/-! ## C5, C10: `platform` -/

theorem firstSatisfied_cons (ok : Bool) (name : String) (rest : List (Bool × String)) :
    firstSatisfied ((ok, name) :: rest) = if ok then name else firstSatisfied rest := rfl

theorem platform_eq_firstSatisfied (d : PlatformDefs) :
    platform d = firstSatisfied (platformTests d) := by
  unfold platform platformTests
  simp only [firstSatisfied]

theorem firstSatisfied_mem (l : List (Bool × String)) :
    firstSatisfied l ∈ "unknown" :: l.map Prod.snd := by
  induction l with
  | nil => simp [firstSatisfied]
  | cons t rest ih =>
    obtain ⟨ok, name⟩ := t
    rw [firstSatisfied_cons]
    cases ok
    · simp only [Bool.false_eq_true, if_false]
      simp only [List.mem_cons, List.map_cons] at ih ⊢
      tauto
    · simp

theorem firstSatisfied_unknown_iff (l : List (Bool × String))
    (h : ∀ t ∈ l, t.2 ≠ "unknown") :
    firstSatisfied l = "unknown" ↔ ∀ t ∈ l, t.1 = false := by
  induction l with
  | nil => simp [firstSatisfied]
  | cons t rest ih =>
    obtain ⟨ok, name⟩ := t
    have hname : name ≠ "unknown" := h (ok, name) (List.mem_cons_self _ _)
    have hrest := ih (fun t ht => h t (List.mem_cons_of_mem _ ht))
    rw [firstSatisfied_cons]
    cases ok
    · simp [hrest]
    · simp [hname]

/-- A name that occurs once in a list of tests, and is not the default, is
the result exactly when its test holds and every earlier test fails. -/
theorem firstSatisfied_eq_name (pre post : List (Bool × String)) (ok : Bool) (name : String)
    (hpre : ∀ t ∈ pre, t.2 ≠ name) (hpost : ∀ t ∈ post, t.2 ≠ name)
    (hname : name ≠ "unknown") :
    firstSatisfied (pre ++ (ok, name) :: post) = name ↔
      ok = true ∧ ∀ t ∈ pre, t.1 = false := by
  induction pre with
  | nil =>
    have hp : firstSatisfied post ≠ name := by
      intro e
      have hm := firstSatisfied_mem post
      rw [e, List.mem_cons, List.mem_map] at hm
      rcases hm with hm | ⟨t, ht, hte⟩
      · exact hname hm
      · exact hpost t ht hte
    rw [List.nil_append, firstSatisfied_cons]
    cases ok
    · simp [hp]
    · simp
  | cons t rest ih =>
    obtain ⟨ok1, name1⟩ := t
    have h1 : name1 ≠ name := hpre (ok1, name1) (List.mem_cons_self _ _)
    have hrest := ih (fun t ht => hpre t (List.mem_cons_of_mem _ ht))
    rw [List.cons_append, firstSatisfied_cons]
    cases ok1
    · simp [hrest]
    · simp [h1]

/-- The result is the name of a satisfied test that no satisfied test
precedes. -/
theorem firstSatisfied_at (l : List (Bool × String)) (i : Nat) (name : String)
    (hok : l[i]? = some (true, name))
    (hbefore : ∀ j, j < i → ∀ t, l[j]? = some t → t.1 = false) :
    firstSatisfied l = name := by
  induction l generalizing i with
  | nil => simp at hok
  | cons t rest ih =>
    obtain ⟨ok, nm⟩ := t
    rw [firstSatisfied_cons]
    cases i with
    | zero =>
      simp only [List.getElem?_cons_zero, Option.some.injEq, Prod.mk.injEq] at hok
      simp [hok.1, hok.2]
    | succ k =>
      have h0 : ok = false := hbefore 0 (Nat.succ_pos k) (ok, nm) (by simp)
      rw [h0]
      simp only [Bool.false_eq_true, if_false]
      apply ih k
      · simpa using hok
      · intro j hj t ht
        exact hbefore (j + 1) (Nat.succ_lt_succ hj) t (by simpa using ht)

theorem elifv_false_iff (x : Option Int) : elifv x = false ↔ notSet x := by
  unfold elifv notSet
  cases x with
  | none => simp
  | some v => simp

/-- Claim C5 as stated fails: with `_WIN64` defined as 0 and nothing else
defined, a symbol is defined and `platform` still returns "unknown". -/
theorem platform_unknown_with_defined_symbol :
    win64ZeroDefs._WIN64 ≠ none ∧ platform win64ZeroDefs = "unknown" := by
  decide

/-- Claim C5 (amended): for every assignment of the platform symbols,
`platform` returns a member of the fixed set of twelve strings, and it
returns "unknown" exactly when `_WIN32` is undefined and every other symbol
is undefined or defined as 0. -/
theorem platform_in_fixed_set (d : PlatformDefs) :
    platform d ∈ platformNames ∧
    (platform d = "unknown" ↔
      d._WIN32 = none ∧ notSet d._WIN64 ∧ notSet d.__APPLE__ ∧ notSet d.__MACH__ ∧
      notSet d.__linux__ ∧ notSet d.__unix__ ∧ notSet d.__posix ∧ notSet d.__FreeBSD__ ∧
      notSet d.__OpenBSD__ ∧ notSet d.__NetBSD__ ∧ notSet d.__DragonFly__ ∧
      notSet d.__sun) := by
  constructor
  · have h := firstSatisfied_mem (platformTests d)
    rw [← platform_eq_firstSatisfied] at h
    simpa [platformTests, platformNames, or_comm, or_left_comm] using h
  · rw [platform_eq_firstSatisfied,
      firstSatisfied_unknown_iff _ (by simp [platformTests])]
    simp only [← elifv_false_iff]
    simp [platformTests, ifdef, and_assoc]

/-- Claim C10: `platform` returns the string of the first satisfied test in
the order `_WIN32`, `_WIN64`, `__APPLE__` or `__MACH__`, `__linux__`,
`__unix__`, `__posix`, `__FreeBSD__`, `__OpenBSD__`, `__NetBSD__`,
`__DragonFly__`, `__sun`.  So "win64" is returned only when `_WIN64` is set
and `_WIN32` is not defined; when `__linux__` and `__unix__` are both set the
result is never "unix", and it is "linux" if no earlier test is satisfied;
and "freebsd", "openbsd", "netbsd", "dragonfly", "sunos" are returned only
when `__unix__` and `__posix` are not set. -/
theorem platform_first_match (d : PlatformDefs) :
    platform d = firstSatisfied (platformTests d) ∧
    (∀ (i : Nat) (name : String), (platformTests d)[i]? = some (true, name) →
      (∀ j, j < i → ∀ t, (platformTests d)[j]? = some t → t.1 = false) →
      platform d = name) ∧
    (platform d = "win64" → elifv d._WIN64 = true ∧ d._WIN32 = none) ∧
    (elifv d.__linux__ = true → elifv d.__unix__ = true →
      platform d ≠ "unix" ∧
      (d._WIN32 = none → elifv d._WIN64 = false → elifv d.__APPLE__ = false →
        elifv d.__MACH__ = false → platform d = "linux")) ∧
    (platform d ∈ ["freebsd", "openbsd", "netbsd", "dragonfly", "sunos"] →
      elifv d.__unix__ = false ∧ elifv d.__posix = false) := by
  refine ⟨platform_eq_firstSatisfied d, ?_, ?_, ?_, ?_⟩
  · intro i name hok hbefore
    rw [platform_eq_firstSatisfied]
    exact firstSatisfied_at _ i name hok hbefore
  · intro h
    rw [platform_eq_firstSatisfied] at h
    have := (firstSatisfied_eq_name [(ifdef d._WIN32, "win32")] _ (elifv d._WIN64) "win64"
      (by simp) (by simp) (by decide)).1 h
    simpa [ifdef] using this
  · intro hl hu
    constructor
    · intro h
      rw [platform_eq_firstSatisfied] at h
      have := (firstSatisfied_eq_name
        [(ifdef d._WIN32, "win32"), (elifv d._WIN64, "win64"),
          (elifv d.__APPLE__ || elifv d.__MACH__, "darwin"), (elifv d.__linux__, "linux")]
        _ (elifv d.__unix__) "unix" (by simp) (by simp) (by decide)).1 h
      simp [hl] at this
    · intro h1 h2 h3 h4
      simp [platform, ifdef, h1, h2, h3, h4, hl]
  · intro h
    have key : ∀ (pre post : List (Bool × String)) (ok : Bool) (name : String),
        platformTests d = pre ++ (ok, name) :: post →
        (elifv d.__unix__, "unix") ∈ pre → (elifv d.__posix, "posix") ∈ pre →
        (∀ t ∈ pre, t.2 ≠ name) → (∀ t ∈ post, t.2 ≠ name) → name ≠ "unknown" →
        platform d = name → elifv d.__unix__ = false ∧ elifv d.__posix = false := by
      intro pre post ok name hsplit hu hp hpre hpost hname he
      rw [platform_eq_firstSatisfied, hsplit] at he
      have hall := ((firstSatisfied_eq_name pre post ok name hpre hpost hname).1 he).2
      exact ⟨hall _ hu, hall _ hp⟩
    simp only [List.mem_cons, List.mem_singleton, List.not_mem_nil, or_false] at h
    rcases h with h | h | h | h | h
    · exact key ((platformTests d).take 6) ((platformTests d).drop 7) _ "freebsd" rfl
        (by simp [platformTests]) (by simp [platformTests]) (by simp [platformTests])
        (by simp [platformTests]) (by decide) h
    · exact key ((platformTests d).take 7) ((platformTests d).drop 8) _ "openbsd" rfl
        (by simp [platformTests]) (by simp [platformTests]) (by simp [platformTests])
        (by simp [platformTests]) (by decide) h
    · exact key ((platformTests d).take 8) ((platformTests d).drop 9) _ "netbsd" rfl
        (by simp [platformTests]) (by simp [platformTests]) (by simp [platformTests])
        (by simp [platformTests]) (by decide) h
    · exact key ((platformTests d).take 9) ((platformTests d).drop 10) _ "dragonfly" rfl
        (by simp [platformTests]) (by simp [platformTests]) (by simp [platformTests])
        (by simp [platformTests]) (by decide) h
    · exact key ((platformTests d).take 10) ((platformTests d).drop 11) _ "sunos" rfl
        (by simp [platformTests]) (by simp [platformTests]) (by simp [platformTests])
        (by simp [platformTests]) (by decide) h

/-- Witness for C10: a compiler that sets only `_WIN64`, a Linux compiler
that sets `__linux__` and `__unix__`, and a Solaris compiler that sets only
`__sun`. -/
theorem platform_first_match_witness :
    (platform win64OnlyDefs = "win64" ∧
      elifv linuxDefs.__linux__ = true ∧ elifv linuxDefs.__unix__ = true ∧
      platform sunDefs ∈ ["freebsd", "openbsd", "netbsd", "dragonfly", "sunos"]) ∧
    ((platformTests linuxDefs)[3]? = some (true, "linux") ∧ platform linuxDefs = "linux") ∧
    (elifv win64OnlyDefs._WIN64 = true ∧ win64OnlyDefs._WIN32 = none) ∧
    (platform linuxDefs ≠ "unix" ∧ platform linuxDefs = "linux") ∧
    (elifv sunDefs.__unix__ = false ∧ elifv sunDefs.__posix = false) :=
  have hbefore : ∀ j, j < 3 → ∀ t, (platformTests linuxDefs)[j]? = some t → t.1 = false := by
    intro j hj t ht
    have hj3 : j = 0 ∨ j = 1 ∨ j = 2 := by omega
    rcases hj3 with rfl | rfl | rfl <;>
      · simp only [platformTests, List.getElem?_cons_zero, List.getElem?_cons_succ,
          Option.some.injEq] at ht
        rw [← ht]
        decide
  ⟨⟨by decide, by decide, by decide, by decide⟩,
   ⟨by decide, (platform_first_match linuxDefs).2.1 3 "linux" (by decide) hbefore⟩,
   (platform_first_match win64OnlyDefs).2.2.1 (by decide),
   ⟨((platform_first_match linuxDefs).2.2.2.1 (by decide) (by decide)).1,
    ((platform_first_match linuxDefs).2.2.2.1 (by decide) (by decide)).2
      (by decide) (by decide) (by decide) (by decide)⟩,
   (platform_first_match sunDefs).2.2.2.2 (by decide)⟩

/-! ## C6: `VM` -/

/-- Claim C6: when `bze_name` is set to `n` and `bze_content` to `c`, `VM`
appends to standard output exactly the four lines
"---Blaze Virtual Machine---", "Version: 0.0.1", "File: " followed by `n`
and "Content: " followed by `c`, each ended by a newline, in that order, and
nothing else. -/
theorem VM_banner (getenv : String → Option String) (out n c : String)
    (hn : getenv "bze_name" = some n) (hc : getenv "bze_content" = some c) :
    VM getenv out = some (out ++ unlines (bannerLines n c)) ∧
    unlines (bannerLines n c) =
      "---Blaze Virtual Machine---\nVersion: 0.0.1\nFile: " ++ n ++ "\nContent: " ++ c ++ "\n" := by
  have e1 : "---Blaze Virtual Machine---" ++ "\n" ++ "Version: 0.0.1" ++ "\n" ++ "File: "
      = "---Blaze Virtual Machine---\nVersion: 0.0.1\nFile: " := by decide
  have e2 : "\n" ++ "Content: " = "\nContent: " := by decide
  have hu : unlines (bannerLines n c) =
      "---Blaze Virtual Machine---\nVersion: 0.0.1\nFile: " ++ n ++ "\nContent: " ++ c ++ "\n" := by
    simp only [unlines, bannerLines, List.foldl_cons, List.foldl_nil, String.empty_append]
    rw [← e1, ← e2]
    simp only [String.append_assoc]
  refine ⟨?_, hu⟩
  rw [hu]
  simp only [VM, hn, hc]
  rw [← e1, ← e2]
  simp only [String.append_assoc]

/-- Witness for C6: the sample environment, on an empty standard output. -/
theorem VM_banner_witness :
    (sampleEnv "bze_name" = some "main.bzx" ∧ sampleEnv "bze_content" = some "println(1)") ∧
    VM sampleEnv "" = some ("" ++ unlines (bannerLines "main.bzx" "println(1)")) ∧
    unlines (bannerLines "main.bzx" "println(1)") =
      "---Blaze Virtual Machine---\nVersion: 0.0.1\nFile: " ++ "main.bzx" ++ "\nContent: "
        ++ "println(1)" ++ "\n" :=
  ⟨⟨by decide, by decide⟩, VM_banner sampleEnv "" "main.bzx" "println(1)" (by decide) (by decide)⟩

/-! ## C7: `input_string` -/

/-- A line of 1 to 99 bytes is stored with its terminating NUL inside the
100-byte buffer, and the line with its newline is consumed. -/
theorem input_string_short_line (w : World) (line rest : List Byte)
    (hin : w.stdin = line ++ 10 :: rest) (hne : line ≠ []) (hnl : (10 : Byte) ∉ line)
    (hlen : line.length < 100) :
    (input_string w).1 =
      { cells := line.map some ++ some 0 :: List.replicate (99 - line.length) none,
        overrun := false } ∧
    (input_string w).2.stdin = rest := by
  have htake : (line ++ 10 :: rest).takeWhile (fun b => b ≠ 10) = line := by
    rw [List.takeWhile_append_of_pos]
    · simp
    · intro x hx
      have hne : x ≠ 10 := fun e => hnl (e ▸ hx)
      simpa using hne
  have hdrop : (line ++ 10 :: rest).dropWhile (fun b => b ≠ 10) = 10 :: rest := by
    rw [List.dropWhile_append_of_pos]
    · simp
    · intro x hx
      have hne : x ≠ 10 := fun e => hnl (e ▸ hx)
      simpa using hne
  obtain ⟨x, xs, hx⟩ := List.exists_cons_of_ne_nil hne
  have hcons : w.stdin = x :: (xs ++ 10 :: rest) := by rw [hin, hx]; rfl
  have hle : line.length + 1 ≤ 100 := by omega
  have h99 : 100 - (line.length + 1) = 99 - line.length := by omega
  have hlen1 : (line ++ [0]).length ≤ 100 := by simpa using hle
  unfold input_string scanf_line
  rw [hcons]
  simp only []
  rw [← hcons, hin, htake, hdrop, if_neg hne, store_malloc 100 _ hlen1 (by decide)]
  simp [h99]

/-- Claim C7 fails on the code at two inputs.  When the next input byte is
already a newline, `scanf` stores nothing and consumes nothing: the returned
100 bytes are all indeterminate, none is a 0 the call wrote.  When the next
line is 100 bytes long, `scanf` stores past the end of the allocation, and
the 100 bytes of the buffer hold no 0. -/
theorem input_string_unterminated :
    ((input_string newlineFirstWorld).1 = malloc 100 ∧
      some (0 : Byte) ∉ (input_string newlineFirstWorld).1.cells ∧
      (input_string newlineFirstWorld).2.stdin = newlineFirstWorld.stdin) ∧
    ((input_string longLineWorld).1.overrun = true ∧
      (input_string longLineWorld).1.cells = List.replicate 100 (some 97) ∧
      some (0 : Byte) ∉ (input_string longLineWorld).1.cells) := by
  have h1 : input_string newlineFirstWorld
      = (malloc 100, newlineFirstWorld.log Call.scanf) := by
    rfl
  have h2 : (input_string longLineWorld).1
      = { cells := List.replicate 100 (some 97), overrun := true } := by
    simp [input_string, scanf_line, longLineWorld, List.replicate_succ, Block.store, malloc,
      PTRDIFF_MAX]
  refine ⟨⟨by rw [h1], ?_, by rw [h1]; rfl⟩, by rw [h2], by rw [h2], ?_⟩
  · rw [h1]
    simp [malloc, PTRDIFF_MAX]
  · rw [h2]
    simp

/-! ## C8: `accept_obj` -/

/-- Claim C8: `accept_obj(x)` returns `x` itself, the memory is as it was,
and so the record the result points to, with its field `a`, is the one `x`
pointed to before the call. -/
theorem accept_obj_identity (heap : PersonHeap) (x : PersonPtr) :
    (accept_obj heap x).1 = x ∧
    (accept_obj heap x).2 = heap ∧
    ((accept_obj heap x).2 (accept_obj heap x).1).map Person.a = (heap x).map Person.a :=
  ⟨rfl, rfl, rfl⟩

/-! ## C9: library calls per invocation -/

/-- Claim C9 as stated fails: reading the existing `notes.txt` makes six
library calls, overwriting it makes three, and `println` makes two. -/
theorem more_than_one_call :
    callsMade sampleWorld (read_file sampleWorld "notes.txt").2
      = [Call.fopen, Call.fseek, Call.ftell, Call.fseek, Call.fread, Call.fclose] ∧
    ¬ (callsMade sampleWorld (read_file sampleWorld "notes.txt").2).length ≤ 1 ∧
    callsMade sampleWorld (write_file sampleWorld "notes.txt" [111, 107, 0]).2
      = [Call.fopen, Call.fwrite, Call.fclose] ∧
    callsMade sampleWorld (println plainRender sampleWorld [104, 105] []).2
      = [Call.vprintf, Call.printf] := by
  have hr : callsMade sampleWorld (read_file sampleWorld "notes.txt").2
      = [Call.fopen, Call.fseek, Call.ftell, Call.fseek, Call.fread, Call.fclose] :=
    callsMade_append _ _ _ (read_file_trace sampleWorld "notes.txt" (by decide))
  have hw : callsMade sampleWorld (write_file sampleWorld "notes.txt" [111, 107, 0]).2
      = [Call.fopen, Call.fwrite, Call.fclose] :=
    callsMade_append _ _ _ (write_file_opened sampleWorld "notes.txt" [111, 107, 0]
      (by decide)).2.1
  rw [hr, hw]
  refine ⟨rfl, by decide, rfl, rfl⟩

/-- Claim C9 (amended): one invocation makes exactly these library calls.
`read_file`: `fopen` alone when the file cannot be opened for reading,
otherwise `fopen, fseek, ftell, fseek, fread, fclose`.  `write_file`: `fopen`
alone when the file cannot be opened for writing, otherwise
`fopen, fwrite, fclose`.  `delete_file`: `remove`.  `print`: `vprintf`.
`println`: `vprintf, printf`.  `input_int`, `input_float`, `input_char`,
`input_string`: one `scanf` each.  `platform`: none. -/
theorem calls_per_invocation {A F : Type} (render : List Byte → List A → List Byte)
    (conv_d : List Byte → Int × Option Int × List Byte)
    (conv_f : List Byte → Int × Option F × List Byte)
    (w : World) (path : String) (content fmt : List Byte) (args : List A)
    (d : PlatformDefs) :
    callsMade w (read_file w path).2
      = (if w.fs.canOpenRead path = true then
          [Call.fopen, Call.fseek, Call.ftell, Call.fseek, Call.fread, Call.fclose]
        else [Call.fopen]) ∧
    callsMade w (write_file w path content).2
      = (if w.fs.canOpenWrite path = true then [Call.fopen, Call.fwrite, Call.fclose]
        else [Call.fopen]) ∧
    callsMade w (delete_file w path).2 = [Call.remove] ∧
    callsMade w (print render w fmt args).2 = [Call.vprintf] ∧
    callsMade w (println render w fmt args).2 = [Call.vprintf, Call.printf] ∧
    callsMade w (input_int conv_d w).2 = [Call.scanf] ∧
    callsMade w (input_float conv_f w).2 = [Call.scanf] ∧
    callsMade w (input_char w).2 = [Call.scanf] ∧
    callsMade w (input_string w).2 = [Call.scanf] ∧
    callsMade w (platform d, w).2 = [] := by
  have hnum : ∀ {V : Type} (conv : List Byte → Int × Option V × List Byte) (dst : Option V),
      (scanf_num conv w dst).2.2.trace = w.trace ++ [Call.scanf] := by
    intro V conv dst
    unfold scanf_num
    split <;> rfl
  refine ⟨?_, ?_, ?_, ?_, ?_, ?_, ?_, ?_, ?_, ?_⟩
  · cases hc : w.fs.canOpenRead path with
    | false =>
      rw [read_file_none w path hc]
      simp [callsMade, World.log]
    | true =>
      simp only [if_true]
      exact callsMade_append _ _ _ (read_file_trace w path hc)
  · cases hc : w.fs.canOpenWrite path with
    | false =>
      rw [write_file_refused w path content hc]
      simp [callsMade, World.log]
    | true =>
      simp only [if_true]
      exact callsMade_append _ _ _ (write_file_opened w path content hc).2.1
  · apply callsMade_append
    unfold delete_file remove
    cases hf : w.fs.files path with
    | none => rfl
    | some f =>
      cases hr : w.fs.removable path <;> simp [World.log]
  · exact callsMade_append _ _ _ (by simp [print, vprintf, World.log])
  · exact callsMade_append _ _ _ (by simp [println, vprintf, printf, World.log])
  · exact callsMade_append _ _ _ (by simpa [input_int] using hnum conv_d none)
  · exact callsMade_append _ _ _ (by simpa [input_float] using hnum conv_f none)
  · apply callsMade_append
    unfold input_char scanf_c
    cases hs : w.stdin <;> rfl
  · apply callsMade_append
    unfold input_string scanf_line
    cases hs : w.stdin with
    | nil => rfl
    | cons b bs =>
      simp only []
      split <;> rfl
  · simp [callsMade]

end Blazex
